import Mathlib

set_option autoImplicit false

/-!
Verification development for the WordleSolver constraint engine.

The Python source (src/constraints.py, src/solver.py, src/stats.py,
src/recommender.py) is shallowly embedded here:

* Python `dict`s become association lists (`List (key × value)`), looked up
  with `alLookup` (first binding wins, as in a dict whose keys are unique)
  and updated with `alSet` (overwrite in place or append, matching dict
  insertion-order semantics).
* Python `set`s of positions/letters become `Finset`s.
* Python `float` scores become `ℚ`; every arithmetic operation used by the
  scoring code (+, -, *, /) is mirrored exactly.
* Functions that `raise` become `Except String` values.
* The statistics cache is explicit state, threaded through calls.
-/

deriving instance DecidableEq for Except

namespace WordleSolver

/-- Association-list lookup; models Python `dict` access (`d[k]`, `d.get(k)`):
the first binding of the key wins. -/
def alLookup {α β : Type} [DecidableEq α] (al : List (α × β)) (a : α) : Option β :=
  match al with
  | [] => none
  | (k, v) :: rest => if k = a then some v else alLookup rest a

/-- Association-list update-or-append; models Python `d[k] = v`: an existing
binding is overwritten in place, a new key is appended at the end. -/
def alSet {α β : Type} [DecidableEq α] (al : List (α × β)) (a : α) (v : β) : List (α × β) :=
  match al with
  | [] => [(a, v)]
  | (k, w) :: rest => if k = a then (k, v) :: rest else (k, w) :: alSet rest a v

/-- Keys of an association list are pairwise distinct (every Python dict
satisfies this). -/
def keysNodup {α β : Type} (al : List (α × β)) : Prop :=
  (al.map Prod.fst).Nodup

instance {α β : Type} [DecidableEq α] (al : List (α × β)) : Decidable (keysNodup al) := by
  unfold keysNodup
  infer_instance

/-- `FeedbackColor` from src/constraints.py: the three Wordle feedback states
GREEN / YELLOW / GRAY. -/
inductive FeedbackColor where
  | green
  | yellow
  | gray
deriving DecidableEq, Repr

/-- `FeedbackRound` from src/constraints.py: one guess with its five
per-letter colors. -/
structure FeedbackRound where
  guess : String
  feedback : List FeedbackColor
deriving DecidableEq

/-- A lowercase ASCII letter, as accepted by the `isalpha`/`islower`
validation of `FeedbackRound.__post_init__`. -/
def isLowerAlpha (c : Char) : Bool :=
  'a' ≤ c && c ≤ 'z'

/-- The validation performed by `FeedbackRound.__post_init__`: guess of
length 5, feedback of length 5, lowercase alphabetic guess.  (The runtime
type check on the feedback elements is enforced by the Lean type.) -/
def FeedbackRound.validInput (fr : FeedbackRound) : Prop :=
  fr.guess.length = 5 ∧ fr.feedback.length = 5 ∧ ∀ c ∈ fr.guess.toList, isLowerAlpha c

instance (fr : FeedbackRound) : Decidable fr.validInput := by
  unfold FeedbackRound.validInput
  infer_instance

/-- `Constraint` from src/constraints.py.  `greens` maps position to letter,
`yellows` maps letter to excluded positions, `letter_counts` maps letter to
`(min_count, max_count)` where `none` is Python's `None` (unbounded). -/
structure Constraint where
  greens : List (Nat × Char)
  yellows : List (Char × Finset Nat)
  letter_counts : List (Char × (Nat × Option Nat))
deriving DecidableEq

instance : Inhabited Constraint := ⟨⟨[], [], []⟩⟩

/-- The derived `Constraint.grays` property: letters whose `max_count == 0`,
always recomputed from `letter_counts`. -/
def Constraint.grays (c : Constraint) : Finset Char :=
  (c.letter_counts.filterMap (fun p => if p.2.2 = some 0 then some p.1 else none)).toFinset

/-- `Constraint.get_definitely_absent` from src/constraints.py: an alias for
the derived `grays` property. -/
def Constraint.get_definitely_absent (c : Constraint) : Finset Char :=
  c.grays

/-- Accumulator for the first pass of `FeedbackRound.to_constraint`
(step 1 of the source: per-color counts and position sets). -/
structure DeriveState where
  greens : List (Nat × Char)
  green_count : List (Char × Nat)
  yellow_count : List (Char × Nat)
  gray_count : List (Char × Nat)
  yellow_positions : List (Char × Finset Nat)
  gray_positions : List (Char × Finset Nat)

/-- Increment a per-letter counter dict (`d[k] = d.get(k, 0) + 1`). -/
def bumpCount (al : List (Char × Nat)) (c : Char) : List (Char × Nat) :=
  alSet al c ((alLookup al c).getD 0 + 1)

/-- Add a position to a letter's position set
(`d.setdefault(k, set()).add(pos)` pattern of the source). -/
def addPos (al : List (Char × Finset Nat)) (c : Char) (pos : Nat) : List (Char × Finset Nat) :=
  alSet al c (insert pos ((alLookup al c).getD ∅))

/-- One iteration of the `for pos, (letter, color) in enumerate(zip(...))`
loop of `FeedbackRound.to_constraint`. -/
def deriveStep (st : DeriveState) (p : Nat × Char × FeedbackColor) : DeriveState :=
  match p with
  | (pos, letter, .green) =>
      ⟨alSet st.greens pos letter, bumpCount st.green_count letter, st.yellow_count,
       st.gray_count, st.yellow_positions, st.gray_positions⟩
  | (pos, letter, .yellow) =>
      ⟨st.greens, st.green_count, bumpCount st.yellow_count letter, st.gray_count,
       addPos st.yellow_positions letter pos, st.gray_positions⟩
  | (pos, letter, .gray) =>
      ⟨st.greens, st.green_count, st.yellow_count, bumpCount st.gray_count letter,
       st.yellow_positions, addPos st.gray_positions letter pos⟩

/-- `FeedbackRound.to_constraint` from src/constraints.py.

Step 1 collects greens and per-letter yellow/gray counts and positions;
step 2 sets `min_count = greens + yellows` and `max_count = min_count` when
a gray occurrence exists (else unbounded); step 3 builds the position
exclusions, adding gray positions only for letters with `min_count > 0`.
Iteration over `set(self.guess)` is modelled by `dedup` of the guess. -/
def FeedbackRound.to_constraint (fr : FeedbackRound) : Constraint :=
  let triples := (fr.guess.toList.zip fr.feedback).enum.map (fun q => (q.1, q.2.1, q.2.2))
  let st := triples.foldl deriveStep
    ⟨[], [], [], [], [], []⟩
  let letters := fr.guess.toList.dedup
  let letter_counts := letters.map (fun l =>
    let g := (alLookup st.green_count l).getD 0
    let y := (alLookup st.yellow_count l).getD 0
    let gr := (alLookup st.gray_count l).getD 0
    let minc := g + y
    (l, (minc, if gr > 0 then some minc else none)))
  let yellows := letters.filterMap (fun l =>
    let minc := ((alLookup letter_counts l).getD (0, none)).1
    if minc > 0 then
      let ps := ((alLookup st.yellow_positions l).getD ∅) ∪ ((alLookup st.gray_positions l).getD ∅)
      if ps = ∅ then none else some (l, ps)
    else none)
  ⟨st.greens, yellows, letter_counts⟩

/-- The `(min, max)` count bounds recorded for a letter, defaulting to
`(0, None)` for letters absent from the dict — exactly the
`self.letter_counts.get(letter, (0, None))` of `Constraint.merge`. -/
def countOfD (c : Constraint) (l : Char) : Nat × Option Nat :=
  (alLookup c.letter_counts l).getD (0, none)

/-- The `None`-aware minimum of two upper bounds used by `Constraint.merge`:
`None` is the top element. -/
def optMinNat : Option Nat → Option Nat → Option Nat
  | none, none => none
  | none, some x => some x
  | some x, none => some x
  | some x, some y => some (min x y)

/-- The merged count bounds for one letter:
`(max(min1, min2), min(max1, max2))` with `None` as top. -/
def mergedCount (A B : Constraint) (l : Char) : Nat × Option Nat :=
  let p1 := countOfD A l
  let p2 := countOfD B l
  (max p1.1 p2.1, optMinNat p1.2 p2.2)

/-- The `min > max` sanity-check failure of `Constraint.merge` for one
letter. -/
def badCount (A B : Constraint) (l : Char) : Bool :=
  match mergedCount A B l with
  | (mn, some mx) => decide (mn > mx)
  | (_, none) => false

/-- The green-merging loop of `Constraint.merge`: fold `other.greens` into a
copy of `self.greens`, raising on a position bound to two different
letters. -/
def insGreens (acc : List (Nat × Char)) : List (Nat × Char) → Except String (List (Nat × Char))
  | [] => .ok acc
  | (pos, letter) :: rest =>
      match alLookup acc pos with
      | some l' =>
          if l' ≠ letter then
            .error "Conflicting green constraints"
          else
            insGreens (alSet acc pos letter) rest
      | none => insGreens (alSet acc pos letter) rest

/-- The yellow-merging step of `Constraint.merge`: per letter, the union of
the two excluded-position sets, keeping only nonempty unions
(the `if positions:` guard of the source). -/
def mergeYellows (A B : Constraint) : List (Char × Finset Nat) :=
  ((A.yellows.map Prod.fst) ++ (B.yellows.map Prod.fst)).dedup.filterMap (fun l =>
    let ps := ((alLookup A.yellows l).getD ∅) ∪ ((alLookup B.yellows l).getD ∅)
    if ps = ∅ then none else some (l, ps))

/-- The letters considered by the count-merging loop of `Constraint.merge`
(union of the two key sets). -/
def countLetters (A B : Constraint) : List Char :=
  ((A.letter_counts.map Prod.fst) ++ (B.letter_counts.map Prod.fst)).dedup

/-- The part of `Constraint.merge` that runs after the greens fold has
succeeded with merged greens `mg`: the green/yellow cross-check, the count
sanity check, and the construction of the merged constraint. -/
def mergeAfterGreens (A B : Constraint) (mg : List (Nat × Char)) : Except String Constraint :=
  if mg.any (fun pc => decide (pc.1 ∈ ((alLookup (mergeYellows A B) pc.2).getD ∅))) then
    .error "Conflicting green and yellow constraints"
  else if (countLetters A B).any (fun l => badCount A B l) then
    .error "Impossible letter count"
  else
    .ok ⟨mg, mergeYellows A B, (countLetters A B).map (fun l => (l, mergedCount A B l))⟩

/-- `Constraint.merge` from src/constraints.py.  Greens are folded in with
conflict detection; merged greens are cross-checked against merged yellows;
merged counts are sanity-checked (`min <= max`).  Each `raise ValueError`
becomes an `Except.error`. -/
def Constraint.merge (A B : Constraint) : Except String Constraint :=
  match insGreens A.greens B.greens with
  | .error e => .error e
  | .ok mg => mergeAfterGreens A B mg

/-- The SPEED round of the spec's duplicate-letter worked example:
feedback `[Absent, Absent, Present, Absent, Absent]`. -/
def speedRound : FeedbackRound :=
  ⟨"speed", [.gray, .gray, .yellow, .gray, .gray]⟩

/-- Is an `Except` value an error (a raised exception)? -/
def isErr {α : Type} (e : Except String α) : Bool :=
  match e with
  | .error _ => true
  | .ok _ => false

/-- `word[i]` of the Python source.  Dictionary words have exactly 5 letters,
so every access performed by the source is in bounds; out-of-range reads
return a placeholder. -/
def wget (w : String) (i : Nat) : Char :=
  w.toList.getD i ' '

/-- `Counter(word)[c]`: the number of occurrences of a letter in a word. -/
def wcount (w : String) (c : Char) : Nat :=
  w.toList.count c

/-- `_matches_constraint` from src/solver.py: green positions must match,
yellow letters must occur and avoid their excluded positions, and every
letter-count bound must be satisfied. -/
def matches_constraint (word : String) (c : Constraint) : Bool :=
  c.greens.all (fun pl => wget word pl.1 == pl.2) &&
  c.yellows.all (fun le =>
    (!(wcount word le.1 == 0)) &&
    decide (∀ pos ∈ le.2, ¬ wget word pos = le.1)) &&
  c.letter_counts.all (fun lc =>
    decide (lc.2.1 ≤ wcount word lc.1) &&
    (match lc.2.2 with
     | some mx => decide (wcount word lc.1 ≤ mx)
     | none => true))

/-- `filter_candidates` from src/solver.py: the accumulating loop
`for word in words: if _matches_constraint(word, constraint): candidates.append(word)`. -/
def filter_candidates (words : List String) (constraint : Constraint) : List String :=
  words.foldl (fun acc w => if matches_constraint w constraint then acc ++ [w] else acc) []

/-- A position-frequency table, Python's `Dict[int, Dict[str, float]]` with
keys 0–4: one letter-to-frequency dict per position.  Frequencies are exact
rationals standing for the source's `count / total_words`. -/
abbrev FreqTable := List (List (Char × ℚ))

/-- `position_counts[pos][letter] += 1` of `_compute_position_frequencies`. -/
def bumpPosCount (pcs : List (List (Char × Nat))) (pos : Nat) (c : Char) :
    List (List (Char × Nat)) :=
  pcs.set pos (bumpCount (pcs.getD pos []) c)

/-- `LetterStats._compute_position_frequencies` from src/stats.py: count each
letter at each of the 5 positions, then divide by the number of words; an
empty word list yields 5 empty dicts. -/
def compute_position_frequencies (words : List String) : FreqTable :=
  if words.isEmpty then List.replicate 5 []
  else
    let total : ℚ := words.length
    let counts := words.foldl
      (fun pcs w => (w.toList.enum).foldl (fun pcs2 pc => bumpPosCount pcs2 pc.1 pc.2) pcs)
      (List.replicate 5 [])
    counts.map (fun al => al.map (fun cn => (cn.1, (cn.2 : ℚ) / total)))

/-- `context.position_freqs[pos].get(letter, 0.0)` of the scoring code. -/
def freqLookup (t : FreqTable) (pos : Nat) (c : Char) : ℚ :=
  ((alLookup (t.getD pos []) c)).getD 0

/-- `LetterStats` from src/stats.py.  The memoization cache (a dict keyed by
`frozenset(candidates)`) is explicit state; `full_dict_stats` is the fallback
table precomputed from the full dictionary at construction. -/
structure LetterStats where
  full_dictionary : List String
  cache : List (Finset String × FreqTable)
  full_dict_stats : FreqTable
deriving DecidableEq

/-- `LetterStats.__init__`: empty cache, fallback statistics precomputed over
the full dictionary. -/
def LetterStats.init (dict : List String) : LetterStats :=
  ⟨dict, [], compute_position_frequencies dict⟩

instance : Inhabited LetterStats := ⟨LetterStats.init []⟩

/-- `LetterStats.get_position_frequencies` from src/stats.py (the source's
default `min_candidates_threshold` is 5; `recommend` uses that default).
Returns the table, the updated cache state, and whether this call ran the
frequency computation (`True` exactly on the compute-and-cache path). -/
def LetterStats.get_position_frequencies (s : LetterStats) (candidates : List String)
    (threshold : Nat) : FreqTable × LetterStats × Bool :=
  if candidates.length < threshold then (s.full_dict_stats, s, false)
  else
    let key := candidates.toFinset
    match alLookup s.cache key with
    | some t => (t, s, false)
    | none =>
        let t := compute_position_frequencies candidates
        (t, ⟨s.full_dictionary, (key, t) :: s.cache, s.full_dict_stats⟩, true)

/-- The weight table of src/recommender.py (`DEFAULT_WEIGHTS` keys). -/
structure Weights where
  green : ℚ
  yellow : ℚ
  gray : ℚ
  unused : ℚ
  exploration : ℚ
  duplicate_penalty : ℚ

/-- `DEFAULT_WEIGHTS` from src/recommender.py. -/
def DEFAULT_WEIGHTS : Weights :=
  ⟨10, 5, -5, 8, 12, 15⟩

/-- `POSITION_WEIGHT_MULTIPLIER` from src/recommender.py. -/
def POSITION_WEIGHT_MULTIPLIER : ℚ := 2

/-- `ScoringContext` from src/recommender.py. -/
structure ScoringContext where
  position_freqs : FreqTable
  round_number : Int
  constraint : Constraint
  green_letters : Finset Char
  yellow_letters : Finset Char
  gray_letters : Finset Char
  known_letters : Finset Char
  is_trap_situation : Bool
  trap_variable_positions : Finset Nat
  trap_test_letters : Finset Char

/-- `index[letter].add(word)` of `_build_letter_index`. -/
def idxAdd (idx : List (Char × Finset String)) (c : Char) (w : String) :
    List (Char × Finset String) :=
  alSet idx c (insert w ((alLookup idx c).getD ∅))

/-- `WordRecommender._build_letter_index` from src/recommender.py: for each
dictionary word, add it to the word set of each of its distinct letters. -/
def build_letter_index (dict : List String) : List (Char × Finset String) :=
  dict.foldl (fun idx w => (w.toList.dedup).foldl (fun idx2 c => idxAdd idx2 c w) idx) []

/-- `WordRecommender` from src/recommender.py: the dictionary, the statistics
engine, the weight table, and the letter index built at construction. -/
structure WordRecommender where
  full_dictionary : List String
  stats : LetterStats
  weights : Weights
  letter_index : List (Char × Finset String)

/-- `WordRecommender.__init__`: stores the dictionary, statistics and
weights, and builds the letter index from the full dictionary. -/
def WordRecommender.init (dict : List String) (stats : LetterStats) (weights : Weights) :
    WordRecommender :=
  ⟨dict, stats, weights, build_letter_index dict⟩

/-- `WordRecommender._get_exploration_pool` from src/recommender.py: with no
definitely-absent letters return the whole dictionary; otherwise collect the
excluded-word set from the letter index and keep the dictionary words not in
it. -/
def WordRecommender.get_exploration_pool (self : WordRecommender)
    (definitely_absent : Finset Char) : List String :=
  if definitely_absent = ∅ then self.full_dictionary
  else
    let excluded := definitely_absent.sup (fun c => (alLookup self.letter_index c).getD ∅)
    self.full_dictionary.filter (fun w => w ∉ excluded)

/-- Result of `_detect_trap_pattern`. -/
structure TrapInfo where
  is_trap : Bool
  variable_positions : Finset Nat
  test_letters : Finset Char

/-- `WordRecommender._detect_trap_pattern` from src/recommender.py: inactive
below 3 green positions; otherwise the non-green positions and every letter
the candidates show at those positions. -/
def detect_trap_pattern (candidates : List String) (constraint : Constraint) : TrapInfo :=
  if constraint.greens.length < 3 then ⟨false, ∅, ∅⟩
  else
    let variable_positions := (Finset.range 5) \ (constraint.greens.map Prod.fst).toFinset
    let test_letters := candidates.foldl
      (fun s w => s ∪ variable_positions.image (fun pos => wget w pos)) ∅
    ⟨true, variable_positions, test_letters⟩

/-- `WordRecommender._score_word` from src/recommender.py: doubled position
frequencies, per-distinct-letter state weights, and — in exploration mode —
the exploration bonus, the duplicate penalty with its known-duplicate
reduction, and the trap-coverage bonus of 20 per covered position. -/
def score_word (weights : Weights) (word : String) (ctx : ScoringContext)
    (is_exploration : Bool) : ℚ :=
  let unique_letters := word.toList.dedup
  let position_score := POSITION_WEIGHT_MULTIPLIER *
    (word.toList.enum.foldl (fun acc pc => acc + freqLookup ctx.position_freqs pc.1 pc.2) 0)
  let state_score := unique_letters.foldl (fun acc l =>
    acc + (if l ∈ ctx.green_letters then weights.green
           else if l ∈ ctx.yellow_letters then weights.yellow
           else if l ∈ ctx.gray_letters then weights.gray
           else weights.unused)) 0
  let base := position_score + state_score
  let base2 :=
    if is_exploration then
      let unused_count := (unique_letters.filter (fun l => l ∉ ctx.known_letters)).length
      let dc := unique_letters.foldl (fun dc l =>
        match alLookup ctx.constraint.letter_counts l with
        | some mc => if mc.1 > 1 then max 0 (dc - 1) else dc
        | none => dc) (5 - (unique_letters.length : Int))
      base + (unused_count : ℚ) * weights.exploration - (dc : ℚ) * weights.duplicate_penalty
    else base
  if is_exploration && ctx.is_trap_situation then
    let trap_coverage :=
      (ctx.trap_variable_positions.filter (fun pos => wget word pos ∈ ctx.trap_test_letters)).card
    base2 + (trap_coverage : ℚ) * 20
  else base2

/-- `sum(ord(c) for c in word)` of the `heapq.nlargest` tie-break key. -/
def ordSum (w : String) : Int :=
  w.toList.foldl (fun a c => a + (c.toNat : Int)) 0

/-- Python tuple comparison `k1 > k2` on `(score, -ord_sum)` keys:
lexicographic, first component first. -/
def keyGtB (k1 k2 : ℚ × Int) : Bool :=
  decide (k2.1 < k1.1) || (decide (k1.1 = k2.1) && decide (k2.2 < k1.2))

/-- Stable descending insertion: the new element goes after every element
whose key is at least as large (ties keep original order, as Python's stable
`sorted(..., reverse=True)` does). -/
def insertByGt {α : Type} (gt : α → α → Bool) (x : α) : List α → List α
  | [] => [x]
  | y :: ys => if gt x y then x :: y :: ys else y :: insertByGt gt x ys

/-- Stable descending sort by a strict Boolean comparator; models Python's
stable `sorted(iterable, key=key, reverse=True)`. -/
def sortByGtDesc {α : Type} (gt : α → α → Bool) (l : List α) : List α :=
  l.foldl (fun acc x => insertByGt gt x acc) []

/-- The `heapq.nlargest` key of `WordRecommender.recommend`:
`lambda x: (x[1], -sum(ord(c) for c in x[0]))`. -/
def nlargestKey (p : String × ℚ) : ℚ × Int :=
  (p.2, -(ordSum p.1))

/-- Strict comparator on scored words induced by `nlargestKey`. -/
def selectKeyGt (p q : String × ℚ) : Bool :=
  keyGtB (nlargestKey p) (nlargestKey q)

/-- The top-N selection performed by `WordRecommender.recommend`:
`heapq.nlargest(top_n, scored, key=...)`, which Python documents as
equivalent to the stable `sorted(scored, key=..., reverse=True)[:top_n]`. -/
def select_top_n (n : Nat) (scored : List (String × ℚ)) : List (String × ℚ) :=
  (sortByGtDesc selectKeyGt scored).take n

/-- Lexicographic strict order on character lists (for the spec-side
statement of the tie-break). -/
def lexLt : List Char → List Char → Bool
  | [], [] => false
  | [], _ :: _ => true
  | _ :: _, [] => false
  | a :: as, b :: bs => if a < b then true else if a = b then lexLt as bs else false

/-- Modelled from the spec's words for the refinement claim about top-N
selection: comparator for "score descending, tie-break by the word in
lexicographic ascending order". -/
def specKeyGt (p q : String × ℚ) : Bool :=
  decide (q.2 < p.2) || (decide (p.2 = q.2) && lexLt p.1.toList q.1.toList)

/-- Modelled from the spec's words: full stable sort by score descending with
lexicographic-ascending word tie-break, then truncation to the first n. -/
def spec_select_top_n (n : Nat) (scored : List (String × ℚ)) : List (String × ℚ) :=
  (sortByGtDesc specKeyGt scored).take n

/-- Comparator for the corrected description of the code's tie-break: score
descending, then ascending sum of character codes. -/
def ordSumKeyGt (p q : String × ℚ) : Bool :=
  decide (q.2 < p.2) || (decide (p.2 = q.2) && decide (ordSum p.1 < ordSum q.1))

/-- Full stable sort by score descending with ascending character-code-sum
tie-break, then truncation to the first n. -/
def ord_sum_select_top_n (n : Nat) (scored : List (String × ℚ)) : List (String × ℚ) :=
  (sortByGtDesc ordSumKeyGt scored).take n

/-- The two ranked lists returned by `WordRecommender.recommend`. -/
structure RecResult where
  candidates : List (String × ℚ)
  explorations : List (String × ℚ)

instance : Inhabited RecResult := ⟨⟨[], []⟩⟩

/-- The body of `WordRecommender.recommend` after validation: exploration
pool from the letter index; candidate/exploration split; position
frequencies from the statistics engine (threshold 5, the source default);
trap detection; scoring (exploration logic off for candidates, on for
explorations); top-N selection of both lists; and the updated statistics
state. -/
def recommend_core (self : WordRecommender) (candidates : List String)
    (constraint : Constraint) (round_number : Int) (top_n : Int) :
    RecResult × LetterStats :=
  let definitely_absent := constraint.get_definitely_absent
  let exploration_pool := self.get_exploration_pool definitely_absent
  let candidates_set := candidates.toFinset
  let candidate_words := candidates.filter (fun w => w ∈ candidates_set)
  let exploration_words := exploration_pool.filter (fun w => w ∉ candidates_set)
  let freqs := self.stats.get_position_frequencies candidates 5
  let trap := detect_trap_pattern candidates constraint
  let green_letters := (constraint.greens.map Prod.snd).toFinset
  let yellow_letters := (constraint.yellows.map Prod.fst).toFinset
  let gray_letters := constraint.grays
  let known_letters := green_letters ∪ yellow_letters ∪ gray_letters
  let ctx : ScoringContext :=
    ⟨freqs.1, round_number, constraint, green_letters, yellow_letters, gray_letters,
     known_letters, trap.is_trap, trap.variable_positions, trap.test_letters⟩
  let scored_candidates := candidate_words.map (fun w => (w, score_word self.weights w ctx false))
  let scored_explorations := exploration_words.map (fun w => (w, score_word self.weights w ctx true))
  (⟨select_top_n top_n.toNat scored_candidates,
    select_top_n top_n.toNat scored_explorations⟩, freqs.2.1)

/-- `WordRecommender.recommend` from src/recommender.py: the four validation
checks (round number, list size, empty candidate list, contradictory count
bounds), each a `raise ValueError` in the source, followed by the scoring and
selection body `recommend_core`. -/
def WordRecommender.recommend (self : WordRecommender) (candidates : List String)
    (constraint : Constraint) (round_number : Int) (top_n : Int) :
    Except String (RecResult × LetterStats) :=
  if round_number < 1 then .error "round_number must be >= 1"
  else if top_n < 1 then .error "top_n must be >= 1"
  else if candidates.isEmpty then .error "no matching candidate words"
  else if constraint.letter_counts.any (fun p =>
      match p.2.2 with
      | some mx => decide (p.2.1 > mx)
      | none => false) then .error "contradictory letter count constraint"
  else
    .ok (recommend_core self candidates constraint round_number top_n)

/-- The merged greens dict of `Constraint.merge` viewed without the conflict
check: `other`'s bindings written over a copy of `self`'s. -/
def mergedGreensMap (A B : Constraint) : List (Nat × Char) :=
  B.greens.foldl (fun acc pc => alSet acc pc.1 pc.2) A.greens

/-- Conflict 1 of `Constraint.merge`: some position carries two different
green letters across the two constraints. -/
def greensConflict (A B : Constraint) : Prop :=
  ∃ p c1 c2, alLookup A.greens p = some c1 ∧ alLookup B.greens p = some c2 ∧ c1 ≠ c2

/-- Conflict 2 of `Constraint.merge`: a merged green binding whose position
is excluded for the same letter by the merged yellows. -/
def greenYellowConflict (A B : Constraint) : Prop :=
  ∃ pc ∈ mergedGreensMap A B, pc.1 ∈ (alLookup (mergeYellows A B) pc.2).getD ∅

/-- Conflict 3 of `Constraint.merge`: some letter whose merged minimum
exceeds its (defined) merged maximum. -/
def countConflict (A B : Constraint) : Prop :=
  ∃ l mx, (mergedCount A B l).2 = some mx ∧ mx < (mergedCount A B l).1

/-- The count-bound invariant of the spec: every recorded letter satisfies
`min_count <= max_count` whenever the maximum is defined. -/
def countInvariant (c : Constraint) : Prop :=
  ∀ l mn mx, (l, (mn, some mx)) ∈ c.letter_counts → mn ≤ mx

/-- The constraint derived from the SPEED duplicate-letter round. -/
def speedConstraint : Constraint :=
  speedRound.to_constraint

/-- The seven-word dictionary of the spec's filter-correctness example. -/
def c2Dictionary : List String :=
  ["venom", "melon", "creep", "ember", "enter", "plumb", "below"]

/-- Two constraints with count bounds only, whose merge succeeds. -/
def c4ConstraintA : Constraint := ⟨[], [], [('e', (1, some 1))]⟩

/-- Second operand for the count-merge example. -/
def c4ConstraintB : Constraint := ⟨[], [], [('e', (1, none))]⟩

/-- The merged constraint of the count-merge example. -/
def c4Merged : Constraint :=
  ((Constraint.merge c4ConstraintA c4ConstraintB).toOption).getD default

/-- `greens={0:'c'}` of the spec's merge-conflict example. -/
def c5GreenA : Constraint := ⟨[(0, 'c')], [], []⟩

/-- `greens={0:'r'}` of the spec's merge-conflict example. -/
def c5GreenB : Constraint := ⟨[(0, 'r')], [], []⟩

/-- `greens={1:'r'}` of the spec's green/yellow conflict example. -/
def c5GyA : Constraint := ⟨[(1, 'r')], [], []⟩

/-- `yellows={'r':{1}}` of the spec's green/yellow conflict example. -/
def c5GyB : Constraint := ⟨[], [('r', ({1} : Finset Nat))], []⟩

/-- Constraint whose only record makes letter 'a' definitely absent. -/
def c3cexConstraint : Constraint := ⟨[], [], [('a', (0, some 0))]⟩

/-- Recommender over the one-word dictionary `["apple"]`. -/
def c3cexRecommender : WordRecommender :=
  WordRecommender.init ["apple"] (LetterStats.init ["apple"]) DEFAULT_WEIGHTS

/-- The result of recommending with the gray-letter word `"apple"` supplied
as a candidate. -/
def c3cexPair : RecResult × LetterStats :=
  ((c3cexRecommender.recommend ["apple"] c3cexConstraint 1 1).toOption).getD default

/-- Constraint making the letter 'x' definitely absent. -/
def c3witConstraint : Constraint := ⟨[], [], [('x', (0, some 0))]⟩

/-- Recommender over the one-word dictionary `["fghij"]`. -/
def c3witRecommender : WordRecommender :=
  WordRecommender.init ["fghij"] (LetterStats.init ["fghij"]) DEFAULT_WEIGHTS

/-- A successful recommendation with candidate list `["abcde"]`. -/
def c3witPair : RecResult × LetterStats :=
  ((c3witRecommender.recommend ["abcde"] c3witConstraint 1 1).toOption).getD default

/-- A two-element scored list with equal scores whose two words are ordered
differently by the character-code-sum key and by lexicographic order. -/
def c8TieList : List (String × ℚ) :=
  [("azzzz", 1), ("yaaaa", 1)]

/-- Two-word dictionary for the statistics cache examples. -/
def c9Dict : List String := ["aaaaa", "bbbbb"]

/-- A five-element candidate list (one word, five times). -/
def c9FiveCopies : List String := ["aaaaa", "aaaaa", "aaaaa", "aaaaa", "aaaaa"]

/-- First statistics call: five copies of `"aaaaa"` (length 5, so the
candidate-specific computation runs and is cached). -/
def c9Run1 : FreqTable × LetterStats × Bool :=
  (LetterStats.init c9Dict).get_position_frequencies c9FiveCopies 5

/-- Second statistics call: `["aaaaa"]`, equal as a set to the first call's
list but of length 1, which takes the full-dictionary fallback. -/
def c9Run2 : FreqTable × LetterStats × Bool :=
  c9Run1.2.1.get_position_frequencies ["aaaaa"] 5

/-- Statistics engine for the cache-hit witness. -/
def c9WitStats : LetterStats := LetterStats.init ["qqqqq"]

/-- Five distinct candidate words. -/
def c9WitList1 : List String := ["crane", "slate", "grime", "pouch", "biddy"]

/-- The same five words in reverse order. -/
def c9WitList2 : List String := ["biddy", "pouch", "grime", "slate", "crane"]

end WordleSolver

namespace WordleSolver

/-! ## Helper lemmas about the association-list and sorting primitives -/

theorem alLookup_alSet {α β : Type} [DecidableEq α] (al : List (α × β)) (a b : α) (v : β) :
    alLookup (alSet al a v) b = if a = b then some v else alLookup al b := by
  induction al with
  | nil => simp [alSet, alLookup]
  | cons hd tl ih =>
      obtain ⟨k, w⟩ := hd
      by_cases hka : k = a
      · subst hka
        by_cases hkb : k = b <;> simp [alSet, alLookup, hkb]
      · by_cases hkb : k = b
        · subst hkb
          have : ¬ a = k := fun h => hka h.symm
          simp [alSet, alLookup, hka, this]
        · simp [alSet, alLookup, hka, hkb, ih]

theorem alLookup_eq_none {α β : Type} [DecidableEq α] (al : List (α × β)) (a : α) :
    alLookup al a = none ↔ a ∉ al.map Prod.fst := by
  induction al with
  | nil => simp [alLookup]
  | cons hd tl ih =>
      obtain ⟨k, w⟩ := hd
      by_cases hk : k = a
      · subst hk; simp [alLookup]
      · have hak : ¬ a = k := fun h => hk h.symm
        simp [alLookup, hk, ih, hak]

theorem alLookup_mem_nodup {α β : Type} [DecidableEq α] (al : List (α × β))
    (hnd : keysNodup al) (a : α) (b : β) :
    (a, b) ∈ al ↔ alLookup al a = some b := by
  induction al with
  | nil => simp [alLookup]
  | cons hd tl ih =>
      obtain ⟨k, w⟩ := hd
      have hnd' : keysNodup tl := (List.nodup_cons.mp hnd).2
      by_cases hk : k = a
      · subst hk
        have hnk : k ∉ tl.map Prod.fst := (List.nodup_cons.mp hnd).1
        constructor
        · intro hm
          rcases List.mem_cons.mp hm with h | h
          · injection h with h1 h2; simp [alLookup, h2]
          · exact absurd (List.mem_map.mpr ⟨(k, b), h, rfl⟩) hnk
        · intro hl
          simp [alLookup] at hl
          simp [hl]
      · constructor
        · intro hm
          rcases List.mem_cons.mp hm with h | h
          · injection h with h1 h2; exact absurd h1.symm hk
          · simpa [alLookup, hk] using (ih hnd').mp h
        · intro hl
          simp [alLookup, hk] at hl
          exact List.mem_cons_of_mem _ ((ih hnd').mpr hl)

theorem alLookup_graph {α β : Type} [DecidableEq α] (ls : List α) (f : α → β) (a : α) :
    alLookup (ls.map (fun x => (x, f x))) a = if a ∈ ls then some (f a) else none := by
  induction ls with
  | nil => simp [alLookup]
  | cons hd tl ih =>
      by_cases hk : hd = a
      · subst hk; simp [alLookup]
      · have hak : ¬ a = hd := fun h => hk h.symm
        simp [alLookup, hk, ih, hak]

theorem mem_insertByGt {α : Type} (gt : α → α → Bool) (x y : α) (l : List α) :
    y ∈ insertByGt gt x l ↔ y = x ∨ y ∈ l := by
  induction l with
  | nil => simp [insertByGt]
  | cons hd tl ih =>
      by_cases h : gt x hd
      · simp [insertByGt, h]
      · simp [insertByGt, h, ih]
        tauto

theorem mem_foldl_insertByGt {α : Type} (gt : α → α → Bool) (l : List α) :
    ∀ (acc : List α) (y : α),
      y ∈ l.foldl (fun acc x => insertByGt gt x acc) acc ↔ y ∈ acc ∨ y ∈ l := by
  induction l with
  | nil => intro acc y; simp
  | cons hd tl ih =>
      intro acc y
      rw [List.foldl_cons, ih, mem_insertByGt]
      simp
      tauto

theorem mem_sortByGtDesc {α : Type} (gt : α → α → Bool) (l : List α) (y : α) :
    y ∈ sortByGtDesc gt l ↔ y ∈ l := by
  unfold sortByGtDesc
  rw [mem_foldl_insertByGt]
  simp

theorem mem_select_top_n (n : Nat) (scored : List (String × ℚ)) (p : String × ℚ)
    (h : p ∈ select_top_n n scored) : p ∈ scored := by
  unfold select_top_n at h
  exact (mem_sortByGtDesc _ _ _).mp (List.take_subset _ _ h)

/-! ## Theorems for the claims about derivation and filtering -/

/-- C1: deriving a constraint from guess "speed" with feedback
[Absent, Absent, Present, Absent, Absent] yields `letter_counts['e'] = (1, 1)`,
`yellows['e'] = {2, 3}`, and 'e' is not among the derived gray letters. -/
theorem speed_round_duplicate_letter_derivation :
    alLookup speedConstraint.letter_counts 'e' = some (1, some 1) ∧
    alLookup speedConstraint.yellows 'e' = some ({2, 3} : Finset Nat) ∧
    'e' ∉ speedConstraint.grays := by
  refine ⟨by decide, by decide, by decide⟩

/-- C2 (counterexample): the word "below" — which the claim says the filter
must not return — is returned by `filter_candidates` for the seven-word
dictionary and the SPEED duplicate-E constraint, and it is neither "venom"
nor "melon". -/
theorem speed_filter_claim_counterexample :
    "below" ∈ filter_candidates c2Dictionary speedConstraint ∧
    "below" ∉ (["venom", "melon"] : List String) := by
  refine ⟨by decide, by decide⟩

/-- C2 (amended): for the seven-word dictionary and the SPEED duplicate-E
constraint, the filter returns exactly the words "venom", "melon" and
"below", in dictionary order. -/
theorem speed_filter_exact_result :
    filter_candidates c2Dictionary speedConstraint = ["venom", "melon", "below"] := by
  decide

theorem foldl_filter_acc {α : Type} (p : α → Bool) (ws : List α) :
    ∀ acc : List α,
      ws.foldl (fun acc w => if p w then acc ++ [w] else acc) acc = acc ++ ws.filter p := by
  induction ws with
  | nil => intro acc; simp
  | cons hd tl ih =>
      intro acc
      by_cases h : p hd <;> simp [List.filter_cons, h, ih]

/-- C10: `filter_candidates` returns precisely the input words that match the
constraint, in their original order and multiplicity (it equals `List.filter`
of the matching predicate), and in particular is a sublist of its input, so
no word is introduced. -/
theorem filter_candidates_is_filter (ws : List String) (c : Constraint) :
    filter_candidates ws c = ws.filter (fun w => matches_constraint w c) ∧
    (filter_candidates ws c).Sublist ws := by
  have h : filter_candidates ws c = ws.filter (fun w => matches_constraint w c) := by
    unfold filter_candidates
    simpa using foldl_filter_acc (fun w => matches_constraint w c) ws []
  exact ⟨h, h ▸ List.filter_sublist ws⟩

/-! ## Theorems about constraint merging -/

theorem mem_countLetters (A B : Constraint) (l : Char) :
    l ∈ countLetters A B ↔
      l ∈ A.letter_counts.map Prod.fst ∨ l ∈ B.letter_counts.map Prod.fst := by
  unfold countLetters
  simp [List.mem_dedup]

theorem merge_eq_error {A B : Constraint} {e : String}
    (hg : insGreens A.greens B.greens = .error e) : Constraint.merge A B = .error e := by
  unfold Constraint.merge
  rw [hg]

theorem merge_eq_after {A B : Constraint} {mg : List (Nat × Char)}
    (hg : insGreens A.greens B.greens = .ok mg) :
    Constraint.merge A B = mergeAfterGreens A B mg := by
  unfold Constraint.merge
  rw [hg]

theorem merge_ok_counts {A B C : Constraint} (h : Constraint.merge A B = .ok C) :
    C.letter_counts = (countLetters A B).map (fun l => (l, mergedCount A B l)) ∧
    ∀ l ∈ countLetters A B, badCount A B l = false := by
  cases hg : insGreens A.greens B.greens with
  | error e => rw [merge_eq_error hg] at h; exact absurd h (by simp)
  | ok mg =>
      rw [merge_eq_after hg] at h
      unfold mergeAfterGreens at h
      split at h
      · exact absurd h (by simp)
      · split at h
        next hcnt => exact absurd h (by simp)
        next hcnt =>
            have hC : Constraint.mk mg (mergeYellows A B)
                ((countLetters A B).map (fun l => (l, mergedCount A B l))) = C := by
              simpa using h
            refine ⟨by rw [← hC], ?_⟩
            intro l hl
            simp only [List.any_eq_true, not_exists, not_and] at hcnt
            simpa using hcnt l hl

/-- C4: whenever a merge succeeds, every letter's merged bounds are the
pointwise maximum of the minima (absent letters counting as 0) and the
`None`-as-top minimum of the maxima, so unbounded merged with unbounded is
unbounded and unbounded merged with x is x. -/
theorem merge_counts_are_componentwise (A B C : Constraint)
    (h : Constraint.merge A B = .ok C) (l : Char) :
    countOfD C l = (max (countOfD A l).1 (countOfD B l).1,
                    optMinNat (countOfD A l).2 (countOfD B l).2) := by
  obtain ⟨hc, -⟩ := merge_ok_counts h
  unfold countOfD
  rw [hc, alLookup_graph]
  by_cases hl : l ∈ countLetters A B
  · rw [if_pos hl]
    rfl
  · rw [if_neg hl]
    rw [mem_countLetters] at hl
    push_neg at hl
    have hA : alLookup A.letter_counts l = none := (alLookup_eq_none _ _).mpr hl.1
    have hB : alLookup B.letter_counts l = none := (alLookup_eq_none _ _).mpr hl.2
    simp [countOfD, hA, hB, optMinNat]

/-- C4 (witness): the theorem applied to the concrete succeeding merge of
count bounds `e ↦ (1, 1)` and `e ↦ (1, unbounded)`. -/
theorem merge_counts_are_componentwise_witness :
    Constraint.merge c4ConstraintA c4ConstraintB = .ok c4Merged ∧
    countOfD c4Merged 'e' = (max (countOfD c4ConstraintA 'e').1 (countOfD c4ConstraintB 'e').1,
      optMinNat (countOfD c4ConstraintA 'e').2 (countOfD c4ConstraintB 'e').2) :=
  ⟨by decide, merge_counts_are_componentwise c4ConstraintA c4ConstraintB c4Merged (by decide) 'e'⟩

/-- C6: deriving a constraint from a structurally valid feedback round is a
total operation (the embedded `to_constraint` below raises nothing), and the
count-bound invariant `min_count <= max_count` (when the maximum is defined)
holds both for every derived constraint and for every successfully merged
constraint. -/
theorem derivation_total_and_invariant :
    (∀ fr : FeedbackRound, fr.validInput → countInvariant fr.to_constraint) ∧
    (∀ A B C : Constraint, Constraint.merge A B = .ok C → countInvariant C) := by
  constructor
  · intro fr _ l mn mx hmem
    simp only [FeedbackRound.to_constraint] at hmem
    rw [List.mem_map] at hmem
    obtain ⟨l', hl', heq⟩ := hmem
    have h2 := congrArg (fun p => p.2) heq
    simp only at h2
    have h2a := congrArg (fun p => p.1) h2
    have h2b := congrArg (fun p => p.2) h2
    simp only at h2a h2b
    split at h2b
    · injection h2b with h3
      omega
    · exact absurd h2b (by simp)
  · intro A B C h l mn mx hmem
    obtain ⟨hc, hbad⟩ := merge_ok_counts h
    rw [hc, List.mem_map] at hmem
    obtain ⟨l', hl', heq⟩ := hmem
    have h2 := congrArg (fun p => p.2) heq
    simp only at h2
    have hb := hbad l' hl'
    unfold badCount at hb
    rw [h2] at hb
    simp at hb
    omega

/-- C6 (witness): the derivation half applied to the valid SPEED round. -/
theorem derivation_total_and_invariant_witness :
    speedRound.validInput ∧ countInvariant speedRound.to_constraint :=
  ⟨by decide, derivation_total_and_invariant.1 speedRound (by decide)⟩

theorem isErr_insGreens (l : List (Nat × Char)) (hnd : keysNodup l) :
    ∀ acc, isErr (insGreens acc l) = true ↔
      ∃ pc ∈ l, ∃ c', alLookup acc pc.1 = some c' ∧ c' ≠ pc.2 := by
  induction l with
  | nil => intro acc; simp [insGreens, isErr]
  | cons hd rest ih =>
      obtain ⟨p, c⟩ := hd
      have hp : p ∉ rest.map Prod.fst := (List.nodup_cons.mp hnd).1
      have hnd' : keysNodup rest := (List.nodup_cons.mp hnd).2
      intro acc
      have hrest : ∀ pc ∈ rest, alLookup (alSet acc p c) pc.1 = alLookup acc pc.1 := by
        intro pc hpc
        rw [alLookup_alSet]
        have : p ≠ pc.1 := by
          intro hcontra
          exact hp (hcontra ▸ List.mem_map.mpr ⟨pc, hpc, rfl⟩)
        rw [if_neg this]
      cases hl : alLookup acc p with
      | none =>
          simp only [insGreens, hl]
          rw [ih hnd' (alSet acc p c)]
          constructor
          · rintro ⟨pc, hpc, c', hc', hne⟩
            exact ⟨pc, List.mem_cons_of_mem _ hpc, c', (hrest pc hpc) ▸ hc', hne⟩
          · rintro ⟨pc, hpc, c', hc', hne⟩
            rcases List.mem_cons.mp hpc with heq | hmem
            · subst heq; simp [hl] at hc'
            · exact ⟨pc, hmem, c', (hrest pc hmem).symm ▸ hc', hne⟩
      | some l' =>
          by_cases hlc : l' = c
          · subst hlc
            have hred : isErr (insGreens acc ((p, l') :: rest)) =
                isErr (insGreens (alSet acc p l') rest) := by
              simp [insGreens, hl]
            rw [hred, ih hnd' (alSet acc p l')]
            constructor
            · rintro ⟨pc, hpc, c', hc', hne⟩
              exact ⟨pc, List.mem_cons_of_mem _ hpc, c', (hrest pc hpc) ▸ hc', hne⟩
            · rintro ⟨pc, hpc, c', hc', hne⟩
              rcases List.mem_cons.mp hpc with heq | hmem
              · subst heq
                rw [hl] at hc'
                injection hc' with hc''
                exact absurd hc''.symm hne
              · exact ⟨pc, hmem, c', (hrest pc hmem).symm ▸ hc', hne⟩
          · have hred : isErr (insGreens acc ((p, c) :: rest)) = true := by
              simp [insGreens, hl, hlc, isErr]
            rw [hred]
            simp only [eq_self_iff_true, true_iff]
            exact ⟨(p, c), List.mem_cons_self _ _, l', hl, hlc⟩

theorem insGreens_ok (l : List (Nat × Char)) :
    ∀ acc v, insGreens acc l = .ok v →
      v = l.foldl (fun acc pc => alSet acc pc.1 pc.2) acc := by
  induction l with
  | nil =>
      intro acc v h
      simp [insGreens] at h
      simp [h]
  | cons hd rest ih =>
      obtain ⟨p, c⟩ := hd
      intro acc v
      cases hl : alLookup acc p with
      | none =>
          intro h
          have h' : insGreens (alSet acc p c) rest = .ok v := by
            simpa [insGreens, hl] using h
          simpa using ih (alSet acc p c) v h'
      | some l' =>
          intro h
          by_cases hlc : l' = c
          · subst hlc
            have h' : insGreens (alSet acc p l') rest = .ok v := by
              simpa [insGreens, hl] using h
            simpa using ih (alSet acc p l') v h'
          · have : False := by simp [insGreens, hl, hlc] at h
            exact this.elim

theorem greensConflict_iff_insErr (A B : Constraint) (hndB : keysNodup B.greens) :
    greensConflict A B ↔ isErr (insGreens A.greens B.greens) = true := by
  rw [isErr_insGreens B.greens hndB A.greens]
  constructor
  · rintro ⟨p, c1, c2, hA, hB, hne⟩
    exact ⟨(p, c2), (alLookup_mem_nodup B.greens hndB p c2).mpr hB, c1, hA,
      fun h => hne h⟩
  · rintro ⟨pc, hpc, c', hc', hne⟩
    exact ⟨pc.1, c', pc.2, hc', (alLookup_mem_nodup B.greens hndB pc.1 pc.2).mp hpc, hne⟩

theorem mergedCount_not_mem (A B : Constraint) (l : Char)
    (h : l ∉ countLetters A B) : mergedCount A B l = (0, none) := by
  rw [mem_countLetters] at h
  push_neg at h
  have hA : alLookup A.letter_counts l = none := (alLookup_eq_none _ _).mpr h.1
  have hB : alLookup B.letter_counts l = none := (alLookup_eq_none _ _).mpr h.2
  simp [mergedCount, countOfD, hA, hB, optMinNat]

theorem badCount_true_iff (A B : Constraint) (l : Char) :
    badCount A B l = true ↔
      ∃ mx, (mergedCount A B l).2 = some mx ∧ mx < (mergedCount A B l).1 := by
  unfold badCount
  rcases hmc : mergedCount A B l with ⟨mn, mxo⟩
  cases mxo <;> simp [hmc]

theorem countConflict_iff_any (A B : Constraint) :
    countConflict A B ↔ (countLetters A B).any (fun l => badCount A B l) = true := by
  rw [List.any_eq_true]
  constructor
  · rintro ⟨l, mx, hsome, hlt⟩
    by_cases hl : l ∈ countLetters A B
    · exact ⟨l, hl, (badCount_true_iff A B l).mpr ⟨mx, hsome, hlt⟩⟩
    · rw [mergedCount_not_mem A B l hl] at hsome
      exact absurd hsome (by simp)
  · rintro ⟨l, hl, hb⟩
    obtain ⟨mx, hsome, hlt⟩ := (badCount_true_iff A B l).mp hb
    exact ⟨l, mx, hsome, hlt⟩

theorem greenYellowConflict_iff_any (A B : Constraint) :
    greenYellowConflict A B ↔
      (mergedGreensMap A B).any
        (fun pc => decide (pc.1 ∈ ((alLookup (mergeYellows A B) pc.2).getD ∅))) = true := by
  rw [List.any_eq_true]
  unfold greenYellowConflict
  simp

/-- C5: `merge` raises a conflict error exactly when a position carries two
different green letters across the operands, or a merged green binding is
excluded by the same letter's merged yellows, or some letter's merged minimum
exceeds its merged maximum; in particular the two concrete conflicting merges
of the spec (`greens={0:'c'}` vs `greens={0:'r'}`, and `greens={1:'r'}` vs
`yellows={'r':{1}}`) both raise. -/
theorem merge_conflict_characterization :
    (∀ A B : Constraint, keysNodup B.greens →
      (isErr (Constraint.merge A B) = true ↔
        (greensConflict A B ∨ greenYellowConflict A B ∨ countConflict A B))) ∧
    isErr (Constraint.merge c5GreenA c5GreenB) = true ∧
    isErr (Constraint.merge c5GyA c5GyB) = true := by
  refine ⟨?_, by decide, by decide⟩
  intro A B hndB
  by_cases hgc : greensConflict A B
  · have herr := (greensConflict_iff_insErr A B hndB).mp hgc
    cases hg : insGreens A.greens B.greens with
    | error e =>
        rw [merge_eq_error hg]
        simp only [isErr, true_iff]
        exact Or.inl hgc
    | ok mg => rw [hg] at herr; simp [isErr] at herr
  · cases hg : insGreens A.greens B.greens with
    | error e =>
        have := (greensConflict_iff_insErr A B hndB).mpr (by rw [hg]; rfl)
        exact absurd this hgc
    | ok mg =>
        have hmg : mg = mergedGreensMap A B := insGreens_ok B.greens A.greens mg hg
        rw [merge_eq_after hg]
        unfold mergeAfterGreens
        subst hmg
        by_cases h1 : (mergedGreensMap A B).any
            (fun pc => decide (pc.1 ∈ ((alLookup (mergeYellows A B) pc.2).getD ∅))) = true
        · rw [if_pos h1]
          simp only [isErr, true_iff]
          exact Or.inr (Or.inl ((greenYellowConflict_iff_any A B).mpr h1))
        · rw [if_neg h1]
          by_cases h2 : (countLetters A B).any (fun l => badCount A B l) = true
          · rw [if_pos h2]
            simp only [isErr, true_iff]
            exact Or.inr (Or.inr ((countConflict_iff_any A B).mpr h2))
          · rw [if_neg h2]
            simp only [isErr, Bool.false_eq_true, false_iff]
            rintro (hc | hc | hc)
            · exact hgc hc
            · exact h1 ((greenYellowConflict_iff_any A B).mp hc)
            · exact h2 ((countConflict_iff_any A B).mp hc)

/-- C5 (witness): the characterization applied to the concrete green/green
conflicting pair of the spec. -/
theorem merge_conflict_characterization_witness :
    isErr (Constraint.merge c5GreenA c5GreenB) = true ↔
      (greensConflict c5GreenA c5GreenB ∨ greenYellowConflict c5GreenA c5GreenB ∨
        countConflict c5GreenA c5GreenB) :=
  merge_conflict_characterization.1 c5GreenA c5GreenB (by decide)

/-! ## Theorems about recommendation -/

theorem counts_contradiction_iff (counts : List (Char × (Nat × Option Nat))) :
    counts.any (fun p => match p.2.2 with
      | some mx => decide (p.2.1 > mx)
      | none => false) = true ↔
    ∃ l mn mx, (l, (mn, some mx)) ∈ counts ∧ mx < mn := by
  rw [List.any_eq_true]
  constructor
  · rintro ⟨p, hp, hb⟩
    rcases p with ⟨l, mn, mxo⟩
    cases mxo with
    | none => simp at hb
    | some mx =>
        simp only [decide_eq_true_eq, gt_iff_lt] at hb
        exact ⟨l, mn, mx, hp, hb⟩
  · rintro ⟨l, mn, mx, hmem, hlt⟩
    refine ⟨(l, (mn, some mx)), hmem, ?_⟩
    simpa using hlt

/-- C7: `recommend` raises a validation error exactly when the round number
is below 1, or the requested list size is below 1, or the candidate list is
empty, or some recorded letter has a defined maximum below its minimum;
otherwise it raises no error. -/
theorem recommend_validation_characterization (self : WordRecommender)
    (cs : List String) (constraint : Constraint) (rn tn : Int) :
    isErr (self.recommend cs constraint rn tn) = true ↔
      (rn < 1 ∨ tn < 1 ∨ cs = [] ∨
        ∃ l mn mx, (l, (mn, some mx)) ∈ constraint.letter_counts ∧ mx < mn) := by
  unfold WordRecommender.recommend
  by_cases h1 : rn < 1
  · rw [if_pos h1]
    simp [isErr, h1]
  · rw [if_neg h1]
    by_cases h2 : tn < 1
    · rw [if_pos h2]
      simp [isErr, h2]
    · rw [if_neg h2]
      by_cases h3 : cs.isEmpty
      · rw [if_pos h3]
        simp [isErr, List.isEmpty_iff.mp h3]
      · rw [if_neg h3]
        have h3' : ¬ cs = [] := fun h => h3 (List.isEmpty_iff.mpr h)
        by_cases h4 : constraint.letter_counts.any (fun p =>
            match p.2.2 with
            | some mx => decide (p.2.1 > mx)
            | none => false) = true
        · rw [if_pos h4]
          simp only [isErr, eq_self_iff_true, true_iff]
          exact Or.inr (Or.inr (Or.inr ((counts_contradiction_iff _).mp h4)))
        · rw [if_neg h4]
          simp only [isErr, Bool.false_eq_true, false_iff]
          rintro (h | h | h | h)
          · exact h1 h
          · exact h2 h
          · exact h3' h
          · exact h4 ((counts_contradiction_iff _).mpr h)

theorem insertByGt_congr {α : Type} (gt1 gt2 : α → α → Bool)
    (h : ∀ x y, gt1 x y = gt2 x y) (x : α) (l : List α) :
    insertByGt gt1 x l = insertByGt gt2 x l := by
  induction l with
  | nil => rfl
  | cons hd tl ih => simp only [insertByGt, h x hd, ih]

theorem sortByGtDesc_congr {α : Type} (gt1 gt2 : α → α → Bool)
    (h : ∀ x y, gt1 x y = gt2 x y) (l : List α) :
    sortByGtDesc gt1 l = sortByGtDesc gt2 l := by
  unfold sortByGtDesc
  suffices h' : ∀ acc, l.foldl (fun acc x => insertByGt gt1 x acc) acc =
      l.foldl (fun acc x => insertByGt gt2 x acc) acc from h' []
  induction l with
  | nil => intro acc; rfl
  | cons hd tl ih =>
      intro acc
      simp only [List.foldl_cons]
      rw [insertByGt_congr gt1 gt2 h, ih]

/-- C8 (amended): the top-N selection used by `recommend` equals the stable
full sort by score descending — ties broken by ascending sum of the word's
character codes, further ties by original position — followed by truncation
to the first n entries. -/
theorem select_top_n_eq_sorted_ord_sum (n : Nat) (scored : List (String × ℚ)) :
    select_top_n n scored = ord_sum_select_top_n n scored := by
  unfold select_top_n ord_sum_select_top_n
  rw [sortByGtDesc_congr selectKeyGt ordSumKeyGt ?_]
  intro x y
  unfold selectKeyGt ordSumKeyGt keyGtB nlargestKey
  simp only []
  rw [decide_eq_decide.mpr (neg_lt_neg_iff (α := Int))]

/-- C8 (counterexample): on two equal-score entries whose words are anagram-
unequal in character-code sum, the selection used by `recommend` disagrees
with a full sort by score descending with lexicographic-ascending word
tie-break. -/
theorem select_tie_break_not_lexicographic :
    select_top_n 1 c8TieList ≠ spec_select_top_n 1 c8TieList := by
  decide

theorem idxAdd_superset (idx : List (Char × Finset String)) (c c' : Char) (w s : String)
    (h : s ∈ (alLookup idx c').getD ∅) : s ∈ (alLookup (idxAdd idx c w) c').getD ∅ := by
  unfold idxAdd
  rw [alLookup_alSet]
  by_cases hcc : c = c'
  · subst hcc
    simp only [Option.getD_some]
    exact Finset.mem_insert_of_mem h
  · rw [if_neg hcc]
    exact h

theorem idxAdd_self (idx : List (Char × Finset String)) (c : Char) (w : String) :
    w ∈ (alLookup (idxAdd idx c w) c).getD ∅ := by
  unfold idxAdd
  rw [alLookup_alSet, if_pos rfl]
  simp

theorem foldl_idxAdd_superset (ls : List Char) (v : String) :
    ∀ idx c' s, s ∈ (alLookup idx c').getD ∅ →
      s ∈ (alLookup (ls.foldl (fun i a => idxAdd i a v) idx) c').getD ∅ := by
  induction ls with
  | nil => intro idx c' s h; exact h
  | cons hd tl ih =>
      intro idx c' s h
      exact ih _ _ _ (idxAdd_superset idx hd c' v s h)

theorem foldl_idxAdd_mem (ls : List Char) (v : String) :
    ∀ idx c, c ∈ ls → v ∈ (alLookup (ls.foldl (fun i a => idxAdd i a v) idx) c).getD ∅ := by
  induction ls with
  | nil => intro idx c h; exact absurd h (List.not_mem_nil c)
  | cons hd tl ih =>
      intro idx c h
      rcases List.mem_cons.mp h with heq | hmem
      · subst heq
        exact foldl_idxAdd_superset tl v (idxAdd idx c v) c v (idxAdd_self idx c v)
      · exact ih _ _ hmem

theorem build_letter_index_complete (dict : List String) (w : String) (hw : w ∈ dict)
    (c : Char) (hc : c ∈ w.toList) :
    w ∈ (alLookup (build_letter_index dict) c).getD ∅ := by
  unfold build_letter_index
  suffices h : ∀ (ds : List String) idx, (w ∈ (alLookup idx c).getD ∅ ∨ w ∈ ds) →
      w ∈ (alLookup
        (ds.foldl (fun i v => (v.toList.dedup).foldl (fun i2 a => idxAdd i2 a v) i) idx)
        c).getD ∅ from h dict [] (Or.inr hw)
  intro ds
  induction ds with
  | nil =>
      intro idx h
      rcases h with h | h
      · exact h
      · exact absurd h (List.not_mem_nil w)
  | cons v rest ih =>
      intro idx h
      rcases h with h | h
      · exact ih _ (Or.inl (foldl_idxAdd_superset v.toList.dedup v idx c w h))
      · rcases List.mem_cons.mp h with heq | hmem
        · subst heq
          exact ih _ (Or.inl (foldl_idxAdd_mem w.toList.dedup w idx c (List.mem_dedup.mpr hc)))
        · exact ih _ (Or.inr hmem)

theorem mem_exploration_pool {self : WordRecommender} {absent : Finset Char} {w : String}
    (hidx : self.letter_index = build_letter_index self.full_dictionary)
    (hw : w ∈ self.get_exploration_pool absent) :
    w ∈ self.full_dictionary ∧ ∀ c ∈ absent, c ∉ w.toList := by
  unfold WordRecommender.get_exploration_pool at hw
  by_cases habs : absent = ∅
  · rw [if_pos habs] at hw
    subst habs
    exact ⟨hw, by simp⟩
  · rw [if_neg habs] at hw
    rw [List.mem_filter] at hw
    refine ⟨hw.1, ?_⟩
    intro c hc hcw
    have hIdx : w ∈ (alLookup self.letter_index c).getD ∅ := by
      rw [hidx]
      exact build_letter_index_complete _ w hw.1 c hcw
    have hsup : w ∈ absent.sup (fun c => (alLookup self.letter_index c).getD ∅) :=
      Finset.mem_sup.mpr ⟨c, hc, hIdx⟩
    have h2 := hw.2
    simp only [decide_eq_true_eq] at h2
    exact h2 hsup

theorem mem_core_explorations {self : WordRecommender} {cs : List String}
    {constraint : Constraint} {rn tn : Int} {p : String × ℚ}
    (h : p ∈ (recommend_core self cs constraint rn tn).1.explorations) :
    p.1 ∈ (self.get_exploration_pool constraint.get_definitely_absent).filter
      (fun w => w ∉ cs.toFinset) := by
  unfold recommend_core at h
  simp only at h
  have h1 := mem_select_top_n _ _ _ h
  rw [List.mem_map] at h1
  obtain ⟨w, hw, heq⟩ := h1
  rw [← heq]
  exact hw

theorem mem_core_candidates {self : WordRecommender} {cs : List String}
    {constraint : Constraint} {rn tn : Int} {p : String × ℚ}
    (h : p ∈ (recommend_core self cs constraint rn tn).1.candidates) :
    p.1 ∈ cs := by
  unfold recommend_core at h
  simp only at h
  have h1 := mem_select_top_n _ _ _ h
  rw [List.mem_map] at h1
  obtain ⟨w, hw, heq⟩ := h1
  rw [← heq]
  exact (List.mem_filter.mp hw).1

theorem recommend_ok_core {self : WordRecommender} {cs : List String}
    {constraint : Constraint} {rn tn : Int} {res : RecResult} {st : LetterStats}
    (h : self.recommend cs constraint rn tn = .ok (res, st)) :
    res = (recommend_core self cs constraint rn tn).1 := by
  unfold WordRecommender.recommend at h
  split at h
  · exact absurd h (by simp)
  · split at h
    · exact absurd h (by simp)
    · split at h
      · exact absurd h (by simp)
      · split at h
        · exact absurd h (by simp)
        · have h' := Except.ok.inj h
          rw [h']

/-- C3 (amended): the explorations list returned by `recommend` never
contains a word with a letter in `constraint.grays`; the candidates list is
drawn from the caller-supplied candidate list, so it avoids gray letters
whenever that list does (as the output of Phase-1 filtering always does). -/
theorem recommend_gray_letter_exclusion :
    (∀ (dict : List String) (stats : LetterStats) (wt : Weights) (cs : List String)
        (constraint : Constraint) (rn tn : Int) (res : RecResult) (st : LetterStats),
      (WordRecommender.init dict stats wt).recommend cs constraint rn tn = .ok (res, st) →
      ∀ p ∈ res.explorations, ∀ ch ∈ constraint.grays, ch ∉ p.1.toList) ∧
    (∀ (dict : List String) (stats : LetterStats) (wt : Weights) (cs : List String)
        (constraint : Constraint) (rn tn : Int) (res : RecResult) (st : LetterStats),
      (WordRecommender.init dict stats wt).recommend cs constraint rn tn = .ok (res, st) →
      (∀ w ∈ cs, ∀ ch ∈ constraint.grays, ch ∉ w.toList) →
      ∀ p ∈ res.candidates, ∀ ch ∈ constraint.grays, ch ∉ p.1.toList) := by
  constructor
  · intro dict stats wt cs constraint rn tn res st h p hp ch hch
    rw [recommend_ok_core h] at hp
    have hpool := List.mem_filter.mp (mem_core_explorations hp)
    exact (mem_exploration_pool rfl hpool.1).2 ch hch
  · intro dict stats wt cs constraint rn tn res st h hcs p hp ch hch
    rw [recommend_ok_core h] at hp
    exact hcs p.1 (mem_core_candidates hp) ch hch

/-- C3 (witness): both halves applied to a concrete successful
recommendation over the dictionary `["fghij"]` with gray letter 'x'. -/
theorem recommend_gray_letter_exclusion_witness :
    (∀ p ∈ c3witPair.1.explorations, ∀ ch ∈ c3witConstraint.grays, ch ∉ p.1.toList) ∧
    (∀ p ∈ c3witPair.1.candidates, ∀ ch ∈ c3witConstraint.grays, ch ∉ p.1.toList) :=
  ⟨recommend_gray_letter_exclusion.1 ["fghij"] (LetterStats.init ["fghij"]) DEFAULT_WEIGHTS
      ["abcde"] c3witConstraint 1 1 c3witPair.1 c3witPair.2 rfl,
   recommend_gray_letter_exclusion.2 ["fghij"] (LetterStats.init ["fghij"]) DEFAULT_WEIGHTS
      ["abcde"] c3witConstraint 1 1 c3witPair.1 c3witPair.2 rfl (by decide)⟩

/-- C3 (counterexample): a caller-supplied candidate word containing a gray
letter is returned verbatim in the candidates list, so the claim fails as
stated for arbitrary candidate lists: with `grays = {'a'}` the word "apple"
is recommended as a candidate. -/
theorem recommend_gray_letter_counterexample :
    'a' ∈ c3cexConstraint.grays ∧
    "apple" ∈ (c3cexPair.1.candidates.map Prod.fst) ∧
    'a' ∈ "apple".toList :=
  ⟨by decide, by decide, by decide⟩

/-! ## Theorems about the statistics cache -/

/-- C9 (amended): for two candidate lists equal as sets, both of length at
least the fallback threshold 5, starting from a state whose cache lacks their
key, the first call computes and caches and the second call is served from
the cache with the identical table. -/
theorem stats_cache_hit (s : LetterStats) (l1 l2 : List String)
    (hset : l1.toFinset = l2.toFinset) (h1 : 5 ≤ l1.length) (h2 : 5 ≤ l2.length)
    (hmiss : alLookup s.cache l1.toFinset = none) :
    (s.get_position_frequencies l1 5).1 =
      (((s.get_position_frequencies l1 5).2.1).get_position_frequencies l2 5).1 ∧
    (s.get_position_frequencies l1 5).2.2 = true ∧
    (((s.get_position_frequencies l1 5).2.1).get_position_frequencies l2 5).2.2 = false := by
  have hn1 : ¬ l1.length < 5 := by omega
  have hn2 : ¬ l2.length < 5 := by omega
  have hmiss' : alLookup s.cache l2.toFinset = none := hset ▸ hmiss
  simp only [LetterStats.get_position_frequencies, if_neg hn1, if_neg hn2, hmiss',
    hset, alLookup, if_pos]
  simp

/-- C9 (witness): the cache-hit theorem applied to five distinct words and
their reversal over a one-word dictionary. -/
theorem stats_cache_hit_witness :
    ((c9WitStats.get_position_frequencies c9WitList1 5).1 =
      (((c9WitStats.get_position_frequencies c9WitList1 5).2.1).get_position_frequencies
        c9WitList2 5).1) ∧
    (c9WitStats.get_position_frequencies c9WitList1 5).2.2 = true ∧
    (((c9WitStats.get_position_frequencies c9WitList1 5).2.1).get_position_frequencies
      c9WitList2 5).2.2 = false :=
  stats_cache_hit c9WitStats c9WitList1 c9WitList2 (by decide) (by decide) (by decide) rfl

/-- C9 (counterexample): two candidate lists equal as sets — five copies of
"aaaaa" and the singleton — produce different tables on successive calls,
because the second call falls below the size threshold and is served the
full-dictionary fallback instead of the cached table. -/
theorem stats_cache_claim_counterexample :
    c9FiveCopies.toFinset = (["aaaaa"] : List String).toFinset ∧
    freqLookup c9Run1.1 0 'a' ≠ freqLookup c9Run2.1 0 'a' := by
  constructor
  · decide
  · have ha : freqLookup c9Run1.1 0 'a' = 1 := by
      norm_num [c9Run1, c9FiveCopies, c9Dict, LetterStats.init,
        LetterStats.get_position_frequencies, compute_position_frequencies, bumpPosCount,
        bumpCount, alSet, alLookup, freqLookup]
    have hb : freqLookup c9Run2.1 0 'a' = 1/2 := by
      norm_num [c9Run2, c9Run1, c9FiveCopies, c9Dict, LetterStats.init,
        LetterStats.get_position_frequencies, compute_position_frequencies, bumpPosCount,
        bumpCount, alSet, alLookup, freqLookup]
    rw [ha, hb]
    norm_num

end WordleSolver
